import Mathlib

/-
Verification of the Gmail-to-Discord relay (gmail_webhook.py) against its
natural-language specification.

Embedding conventions:
* Wall-clock time and float-valued durations (time.time, Retry-After headers,
  internalDate/1000) are modelled as rationals.
* The Discord sink is an oracle `sink : Nat → PostResult` giving the outcome of
  the n-th HTTP POST the process makes; a world records the number of POSTs
  made so far and the content of the error_queue.json backing store.
* File-system contents are explicit values: the state file and the error-queue
  file are inductive store contents (missing / corrupted / valid).
* The Gmail listing is a sequence of pages of message ids, newest first; each
  list() call returns one page, with a nextPageToken exactly when further pages
  remain.  The details of a message id are an oracle `String → Option RawMessage`
  (none modelling an exception raised by users().messages().get()).
* Library externals keep their observable behaviour only: datetime.strptime is
  an oracle `String → Option Int` (none = ValueError), and the text of a
  requests exception is abbreviated by its status code or carried message.
-/

/-- The last_processed.json checkpoint file as seen by load_state: absent,
unparsable JSON, or a parsed object whose key may be absent or null. -/
inductive StateFileContent where
  | missing : StateFileContent
  | corrupted : String → StateFileContent
  | valid : Option String → StateFileContent
deriving DecidableEq

/-- load_state: returns (last_processed_message_id, is_first_run); a missing or
corrupted file is treated as a first run. -/
def load_state : StateFileContent → Option String × Bool
  | .missing => (none, true)
  | .corrupted _ => (none, true)
  | .valid v => (v, false)

/-- The message_data dict built by process_message. -/
structure MessageData where
  subject : String
  sender : String
  recipient : String
  date : String
  formatted_date : String
  internal_date : ℚ
  message_id : String
deriving DecidableEq

/-- One entry of error_queue.json: the three dict shapes the code appends or
accepts (a legacy entry is any dict without a recognized type; the code replays
it by its message field, so the model carries exactly that). -/
inductive QueueEntry where
  | rateLimitedMessage : MessageData → String → String → QueueEntry
  | errorMessage : String → String → QueueEntry
  | legacy : String → QueueEntry
deriving DecidableEq

/-- The error_queue.json backing file: absent, unparsable JSON, or a parsed
list of entries. -/
inductive StoreContent where
  | missing : StoreContent
  | corrupted : String → StoreContent
  | valid : List QueueEntry → StoreContent
deriving DecidableEq

/-- load_error_queue: returns the queue together with the file content after
the call (the function rewrites a missing or corrupted file with an empty
list via save_error_queue before returning []). -/
def load_error_queue : StoreContent → List QueueEntry × StoreContent
  | .valid q => (q, .valid q)
  | .missing => ([], .valid [])
  | .corrupted _ => ([], .valid [])

/-- DiscordRateLimiter state (times in seconds as rationals). -/
structure RLState where
  last_request_time : ℚ
  requests_made : Nat
  rate_limit_remaining : Option Int
  rate_limit_reset_after : Option ℚ
  min_delay : ℚ
deriving DecidableEq

/-- The fresh limiter built by DiscordRateLimiter.__init__. -/
def RLState.init : RLState :=
  { last_request_time := 0
    requests_made := 0
    rate_limit_remaining := none
    rate_limit_reset_after := none
    min_delay := 1 }

/-- DiscordRateLimiter.wait_for_rate_limit, as a function of the state and the
current wall-clock time; returns the time at which the wait ends (the moment
the next request is issued and last_request_time is stamped) and the new
state.  Note the second check reuses the current_time read at entry, exactly
as the code does. -/
def wait_for_rate_limit (s : RLState) (current_time : ℚ) : ℚ × RLState :=
  let step1 : ℚ × RLState :=
    match s.rate_limit_reset_after with
    | some ra =>
      let reset_time := s.last_request_time + ra
      if current_time < reset_time then (reset_time, s)
      else (current_time,
        { s with rate_limit_remaining := none, rate_limit_reset_after := none })
    | none => (current_time, s)
  let time_since_last := current_time - s.last_request_time
  let t2 := if time_since_last < s.min_delay
    then step1.1 + (s.min_delay - time_since_last) else step1.1
  (t2, { step1.2 with last_request_time := t2 })

/-- A Discord HTTP response as the rate limiter reads it: status code and the
optional X-RateLimit-Remaining, X-RateLimit-Reset-After and Retry-After
headers. -/
structure HttpResponse where
  status : Nat
  remaining : Option Int
  reset_after : Option ℚ
  retry_after : Option ℚ
deriving DecidableEq

/-- DiscordRateLimiter.update_rate_limit_info: header parsing, with the 429
Retry-After value overriding the reset window. -/
def update_rate_limit_info (s : RLState) (r : HttpResponse) : RLState :=
  let s1 := match r.remaining with
    | some v => { s with rate_limit_remaining := some v }
    | none => s
  let s2 := match r.reset_after with
    | some v => { s1 with rate_limit_reset_after := some v }
    | none => s1
  if r.status = 429 then
    match r.retry_after with
    | some ra => { s2 with rate_limit_reset_after := some ra }
    | none => s2
  else s2

/-- Outcome of one requests.post call against the webhook: an HTTP response
(status plus optional Retry-After), a timeout, or a connection-level error
carrying the exception text. -/
inductive PostResult where
  | response : Nat → Option ℚ → PostResult
  | timeout : PostResult
  | connectionError : String → PostResult

/-- The world the delivery/queue functions act on: the sink oracle, the number
of POSTs made so far, and the error_queue.json file. -/
structure DeliveryWorld where
  sink : Nat → PostResult
  calls : Nat
  store : StoreContent

/-- Issue one POST: consume the next sink outcome. -/
def doPost (w : DeliveryWorld) : PostResult × DeliveryWorld :=
  (w.sink w.calls, { w with calls := w.calls + 1 })

/-- Append an errorMessage entry to the durable queue (the
load_error_queue / append / save_error_queue sequence both except-handlers of
send_error_to_discord perform). -/
def queue_error (w : DeliveryWorld) (msg ts : String) : DeliveryWorld :=
  { w with store := .valid ((load_error_queue w.store).1 ++ [.errorMessage msg ts]) }

/-- send_error_to_discord: one POST; on 429 or any raised exception (timeout,
connection error, or raise_for_status on a 4xx/5xx) the error text is queued
directly and False returned; no recursive re-report. -/
def send_error_to_discord (w : DeliveryWorld) (error_message ts : String) :
    Bool × DeliveryWorld :=
  let p := doPost w
  match p.1 with
  | .response status _ =>
    if status = 429 then (false, queue_error p.2 error_message ts)
    else if status < 400 then (true, p.2)
    else (false, queue_error p.2 error_message ts)
  | .timeout => (false, queue_error p.2 error_message ts)
  | .connectionError _ => (false, queue_error p.2 error_message ts)

/-- The f-string built in the Timeout handler of send_to_discord. -/
def timeout_error_msg (md : MessageData) : String :=
  "Timeout sending to Discord - Subject: " ++ md.subject.take 50 ++ "..."

/-- The f-string built in the RequestException handler of send_to_discord
(the exception text abbreviated to the carried message or status). -/
def network_error_msg (md : MessageData) (e : String) : String :=
  "Network error sending to Discord - Subject: " ++ md.subject.take 50
    ++ "..., Error: " ++ e

/-- The f-string built in the generic Exception handler of send_to_discord. -/
def generic_error_msg (md : MessageData) (mt e : String) : String :=
  "Failed to send email to Discord - Subject: " ++ md.subject.take 50
    ++ "..., Type: " ++ mt ++ ", Error: " ++ e

/-- send_to_discord: a config lookup for an unknown message_type raises KeyError
into the generic handler before any POST; otherwise one POST is made.  A 429
queues the payload itself as a rateLimitedMessage and returns False; a 2xx/3xx
returns True; a Timeout, connection error, or raise_for_status error reports an
error string via send_error_to_discord and returns False. -/
def send_to_discord (w : DeliveryWorld) (md : MessageData) (message_type ts : String) :
    Bool × DeliveryWorld :=
  if message_type ≠ "incoming" ∧ message_type ≠ "outgoing" then
    (false, (send_error_to_discord w (generic_error_msg md message_type "KeyError") ts).2)
  else
    let p := doPost w
    match p.1 with
    | .response status _ =>
      if status = 429 then
        let st := StoreContent.valid
          ((load_error_queue p.2.store).1 ++ [.rateLimitedMessage md message_type ts])
        (false, { p.2 with store := st })
      else if status < 400 then (true, p.2)
      else
        (false, (send_error_to_discord p.2 (network_error_msg md (toString status)) ts).2)
    | .timeout =>
      (false, (send_error_to_discord p.2 (timeout_error_msg md) ts).2)
    | .connectionError e =>
      (false, (send_error_to_discord p.2 (network_error_msg md e) ts).2)

/-- Replay of one queued entry in process_queued_errors: a rateLimitedMessage
goes back through send_to_discord with its stored payload and message_type; an
errorMessage or legacy entry goes back through send_error_to_discord. -/
def replay_one (w : DeliveryWorld) (ts : String) : QueueEntry → Bool × DeliveryWorld
  | .rateLimitedMessage d mt _ => send_to_discord w d mt ts
  | .errorMessage m _ => send_error_to_discord w m ts
  | .legacy m => send_error_to_discord w m ts

/-- The per-entry success flags of a flush, in queue order, with the world
threaded through the replays. -/
def replay_results (w : DeliveryWorld) (ts : String) :
    List QueueEntry → List Bool × DeliveryWorld
  | [] => ([], w)
  | e :: rest =>
    let r := replay_one w ts e
    let rec1 := replay_results r.2 ts rest
    (r.1 :: rec1.1, rec1.2)

/-- The processed list the flush loop builds (entries whose replay succeeded,
in order), with the world threaded through the replays. -/
def flush_loop (w : DeliveryWorld) (ts : String) :
    List QueueEntry → List QueueEntry × DeliveryWorld
  | [] => ([], w)
  | e :: rest =>
    let r := replay_one w ts e
    let rec1 := flush_loop r.2 ts rest
    (if r.1 then e :: rec1.1 else rec1.1, rec1.2)

/-- process_queued_errors: load the queue (which may rewrite a broken file),
return at once if empty, otherwise replay every entry once and rewrite the
store with the snapshot entries that are not members of the processed list. -/
def process_queued_errors (w : DeliveryWorld) (ts : String) : DeliveryWorld :=
  let l := load_error_queue w.store
  if l.1 = [] then { w with store := l.2 }
  else
    let f := flush_loop { w with store := l.2 } ts l.1
    { f.2 with store := .valid (l.1.filter (fun e => decide (e ∉ f.1))) }

/-- Gmail listing model: message ids newest first, chunked into the pages the
paginated list() calls return; a nextPageToken accompanies every page except
the last. -/
def listing_join (pages : List (List String)) : List String := pages.flatten

/-- The inner scan of one page in get_new_messages: append ids until the
watermark id is met, reporting whether it was. -/
def scanPage (wm : String) (acc : List String) : List String → List String × Bool
  | [] => (acc, false)
  | m :: ms => if m = wm then (acc, true) else scanPage wm (acc ++ [m]) ms

/-- The while-loop of get_new_messages: request pages (counting requests) until
the watermark is found on a page, a page comes back empty, or no nextPageToken
remains. -/
def fetch_loop (wm : String) : List (List String) → List String → Nat → List String × Nat
  | [], acc, reqs => (acc, reqs + 1)
  | page :: rest, acc, reqs =>
    if page = [] then (acc, reqs + 1)
    else
      let s := scanPage wm acc page
      if s.2 then (s.1, reqs + 1)
      else if rest = [] then (s.1, reqs + 1)
      else fetch_loop wm rest s.1 (reqs + 1)

/-- get_new_messages: returns the fetched ids in listing (newest-first) order
together with the number of list() requests issued.  first_run requests a
single message; an absent (or empty, by falsiness) watermark requests one page
of 20; otherwise pages are fetched until the watermark id is met. -/
def get_new_messages (pages : List (List String)) (last_processed_id : Option String)
    (first_run : Bool) : List String × Nat :=
  if first_run then ((listing_join pages).take 1, 1)
  else
    match last_processed_id with
    | none => ((listing_join pages).take 20, 1)
    | some wm =>
      if wm = "" then ((listing_join pages).take 20, 1)
      else fetch_loop wm pages [] 0

/-- A raw Gmail message as process_message reads it: labelIds, payload headers
and the optional internalDate (milliseconds). -/
structure RawMessage where
  labelIds : List String
  headers : List (String × String)
  internalDate : Option Int
deriving DecidableEq

/-- is_filtered_message: drafts and scheduled messages are dropped (the headers
argument is accepted and ignored, as in the code). -/
def is_filtered_message (_headers : List (String × String)) (labels : List String) : Bool :=
  labels.contains "DRAFT" || labels.contains "SCHEDULED"

/-- The subject/sender/recipient/date fields with their fallback sentinels. -/
structure HeaderFields where
  subject : String
  sender : String
  recipient : String
  date : String
deriving DecidableEq

/-- The sentinels process_message starts from. -/
def init_fields : HeaderFields :=
  { subject := "No Subject"
    sender := "Unknown Sender"
    recipient := "Unknown Recipient"
    date := "Unknown Date" }

/-- One step of the header loop of process_message: a later header of the same
name overwrites an earlier one. -/
def header_upd (acc : HeaderFields) (h : String × String) : HeaderFields :=
  if h.1 = "Subject" then { acc with subject := h.2 }
  else if h.1 = "From" then { acc with sender := h.2 }
  else if h.1 = "To" then { acc with recipient := h.2 }
  else if h.1 = "Date" then { acc with date := h.2 }
  else acc

/-- convert_to_discord_timestamp, with datetime.strptime as an oracle: a parsed
date becomes a Discord timestamp tag, an unparsable one is returned verbatim. -/
def convert_to_discord_timestamp (parseDate : String → Option Int) (date_string : String) :
    String :=
  match parseDate date_string with
  | some t => "<t:" ++ toString t ++ ":f>"
  | none => date_string

/-- The environment of one scheduler cycle: the Gmail listing pages, the
message-detail oracle (none = get() raises), the strptime oracle, and the
wall-clock timestamp string used for queue entries. -/
structure CycleEnv where
  pages : List (List String)
  details : String → Option RawMessage
  parseDate : String → Option Int
  now_ts : String

/-- The f-string of the exception handler of process_message (exception text
abbreviated). -/
def failed_process_msg (message_id : String) : String :=
  "Failed to process message " ++ message_id

/-- process_message: fetch the message detail (an exception reports an error to
Discord and yields none), drop filtered messages, otherwise build the
message_data dict and classify the direction from the SENT label. -/
def process_message (env : CycleEnv) (w : DeliveryWorld) (message_id : String) :
    Option (MessageData × String) × DeliveryWorld :=
  match env.details message_id with
  | none =>
    (none, (send_error_to_discord w (failed_process_msg message_id) env.now_ts).2)
  | some msg =>
    if is_filtered_message msg.headers msg.labelIds then (none, w)
    else
      let f := msg.headers.foldl header_upd init_fields
      let md : MessageData :=
        { subject := f.subject
          sender := f.sender
          recipient := f.recipient
          date := f.date
          formatted_date := convert_to_discord_timestamp env.parseDate f.date
          internal_date := ((msg.internalDate.getD 0 : Int) : ℚ) / 1000
          message_id := message_id }
      let mt := if msg.labelIds.contains "SENT" then "outgoing" else "incoming"
      (some (md, mt), w)

/-- The in-memory loop state of main, together with the persisted
last_processed.json value save_state maintains. -/
structure LoopState where
  last_message_id : Option String
  is_first_run : Bool
  state_file : Option String
deriving DecidableEq

/-- The first for-loop of a cycle body: process the fetched ids (already
reversed to oldest first), collecting the processed (message_data, type) pairs
and tracking the id of the greatest internal_date seen. -/
def process_loop (env : CycleEnv) (w : DeliveryWorld) (latest : Option String × ℚ) :
    List String → List (MessageData × String) × (Option String × ℚ) × DeliveryWorld
  | [] => ([], latest, w)
  | id :: rest =>
    let r := process_message env w id
    match r.1 with
    | none => process_loop env r.2 latest rest
    | some (md, mt) =>
      let latest1 := if md.internal_date > latest.2
        then (some md.message_id, md.internal_date) else latest
      let rec1 := process_loop env r.2 latest1 rest
      ((md, mt) :: rec1.1, rec1.2)

/-- The second for-loop of a cycle body: send each processed record to Discord
in order, recording each outcome. -/
def deliver_loop (w : DeliveryWorld) (ts : String) :
    List (MessageData × String) → List (MessageData × String × Bool) × DeliveryWorld
  | [] => ([], w)
  | (md, mt) :: rest =>
    let r := send_to_discord w md mt ts
    let rec1 := deliver_loop r.2 ts rest
    ((md, mt, r.1) :: rec1.1, rec1.2)

/-- One iteration of the while-loop of main: fetch, process oldest-first,
deliver, save the watermark when it changed (and is truthy), then flush the
error queue (the flush runs only on cycles with activity). -/
def run_cycle (env : CycleEnv) (w : DeliveryWorld) (s : LoopState) :
    DeliveryWorld × LoopState × List (MessageData × String × Bool) :=
  let msgs := (get_new_messages env.pages s.last_message_id s.is_first_run).1
  if msgs = [] then (w, { s with is_first_run := false }, [])
  else
    let pr := process_loop env w (s.last_message_id, 0) msgs.reverse
    let dl := deliver_loop pr.2.2 env.now_ts pr.1
    let s1 :=
      match pr.2.1.1 with
      | some lid =>
        if lid ≠ "" ∧ some lid ≠ s.last_message_id then
          { last_message_id := some lid, is_first_run := false, state_file := some lid }
        else { s with is_first_run := false }
      | none => { s with is_first_run := false }
    (process_queued_errors dl.2 env.now_ts, s1, dl.1)

/-- The queue an invocation of process_queued_errors snapshots. -/
def loaded_queue (w : DeliveryWorld) : List QueueEntry := (load_error_queue w.store).1

/-- The world right after the flush has loaded (and possibly repaired) the
queue file. -/
def after_load (w : DeliveryWorld) : DeliveryWorld :=
  { w with store := (load_error_queue w.store).2 }

/-- A rateLimitedMessage entry whose stored message_type is one of the two
directions the style table knows (every entry the code itself enqueues is). -/
def entryTypeOk : QueueEntry → Bool
  | .rateLimitedMessage _ mt _ => mt == "incoming" || mt == "outgoing"
  | .errorMessage _ _ => true
  | .legacy _ => true

/-- Select the entries whose paired flag equals b (used to state which queue
entries a flush keeps). -/
def selectBy (b : Bool) : List QueueEntry → List Bool → List QueueEntry
  | [], _ => []
  | _ :: _, [] => []
  | e :: es, f :: fs => if f = b then e :: selectBy b es fs else selectBy b es fs

/-- A sink that times out on the first POST and accepts (204) afterwards. -/
def timeoutThenOk : Nat → PostResult :=
  fun n => if n = 0 then .timeout else .response 204 none

/-- A sink that accepts every POST. -/
def okSink : Nat → PostResult := fun _ => .response 204 none

/-- A sink that accepts the first POST and times out afterwards. -/
def okThenTimeout : Nat → PostResult :=
  fun n => if n = 0 then .response 204 none else .timeout

/-- A sink that answers every POST with 429 (Retry-After 2). -/
def rateLimitedSink : Nat → PostResult := fun _ => .response 429 (some 2)

/-- A concrete notification payload. -/
def md0 : MessageData :=
  { subject := "subject", sender := "a@b", recipient := "c@d", date := "date"
    formatted_date := "date", internal_date := 0, message_id := "m1" }

/-- Fresh world with an empty durable queue whose sink times out once. -/
def w_timeout : DeliveryWorld := ⟨timeoutThenOk, 0, .valid []⟩

/-- A queued error entry, stored twice (duplicate entries) for the flush
counterexample. -/
def dupEntry : QueueEntry := .errorMessage "boom" "t0"

/-- World whose queue holds the same entry twice and whose sink accepts the
first replay and fails the second. -/
def w_dup : DeliveryWorld := ⟨okThenTimeout, 0, .valid [dupEntry, dupEntry]⟩

/-- Three distinct queued failed deliveries. -/
def q3 : List QueueEntry :=
  [.rateLimitedMessage md0 "incoming" "t0",
   .rateLimitedMessage md0 "incoming" "t1",
   .rateLimitedMessage md0 "incoming" "t2"]

/-- World holding q3 against a now-healthy sink. -/
def w_q3 : DeliveryWorld := ⟨okSink, 0, .valid q3⟩

/-- A raw incoming message with internalDate 1000 ms. -/
def rawA : RawMessage := ⟨[], [("Subject", "hello")], some 1000⟩

/-- Cycle environment for the watermark counterexample: one new message idA
above the stored watermark id0. -/
def envA : CycleEnv :=
  ⟨[["idA", "id0"]], fun id => if id = "idA" then some rawA else none,
   fun _ => none, "t1"⟩

/-- Loop state holding watermark id0. -/
def sA : LoopState := ⟨some "id0", false, some "id0"⟩

/-- Raw messages id6, id7, id8 of the oldest-first delivery scenario. -/
def raw6 : RawMessage := ⟨[], [("Subject", "s6")], some 6000⟩

/-- Raw message id7 of the scenario. -/
def raw7 : RawMessage := ⟨[], [("Subject", "s7")], some 7000⟩

/-- Raw message id8 of the scenario. -/
def raw8 : RawMessage := ⟨[], [("Subject", "s8")], some 8000⟩

/-- Cycle environment of the spec scenario: listing [id8, id7, id6, id5]
newest first, watermark id5 stored. -/
def env58 : CycleEnv :=
  ⟨[["id8", "id7", "id6", "id5"]],
   fun id =>
     if id = "id8" then some raw8
     else if id = "id7" then some raw7
     else if id = "id6" then some raw6
     else none,
   fun _ => none, "t"⟩

/-- Loop state holding watermark id5. -/
def s5 : LoopState := ⟨some "id5", false, some "id5"⟩

/-- Fresh world with an empty durable queue and an accepting sink. -/
def w_ok : DeliveryWorld := ⟨okSink, 0, .valid []⟩

/-- A raw message whose To header is the hidden-recipients pattern. -/
def rawHidden : RawMessage :=
  ⟨[], [("To", "undisclosed-recipients:;"), ("Subject", "s")], some 0⟩

/-- A raw message whose To header is empty. -/
def rawEmptyTo : RawMessage := ⟨[], [("To", "")], some 0⟩

/-- Cycle environment serving the two unsanitized-recipient messages. -/
def envH : CycleEnv :=
  ⟨[], fun id => if id = "h" then some rawHidden else some rawEmptyTo,
   fun _ => none, "t"⟩

/-- C10: loading the error queue never raises: a missing backing file, or one
with corrupted JSON of any content, is silently rewritten as an empty list and
the empty queue is returned — every previously queued failure in a corrupted
store is discarded — while a valid file is returned unchanged. -/
theorem load_error_queue_total_reset :
    (∀ raw, load_error_queue (.corrupted raw) = ([], .valid []))
    ∧ load_error_queue .missing = ([], .valid [])
    ∧ (∀ q, load_error_queue (.valid q) = (q, .valid q)) :=
  ⟨fun _ => rfl, rfl, fun _ => rfl⟩

/-- The time wait_for_rate_limit returns is the time it stamps into
last_request_time. -/
theorem wait_last_request_time (s : RLState) (now : ℚ) :
    (wait_for_rate_limit s now).2.last_request_time = (wait_for_rate_limit s now).1 := rfl

/-- With an active reset window of ra seconds, wait_for_rate_limit does not end
before last_request_time + ra. -/
theorem wait_result_ge_reset (s : RLState) (now ra : ℚ)
    (h : s.rate_limit_reset_after = some ra) :
    s.last_request_time + ra ≤ (wait_for_rate_limit s now).1 := by
  simp only [wait_for_rate_limit, h]
  split_ifs with h1 h2 h3 <;> simp <;> linarith

/-- update_rate_limit_info never touches last_request_time. -/
theorem update_preserves_last (s : RLState) (r : HttpResponse) :
    (update_rate_limit_info s r).last_request_time = s.last_request_time := by
  rcases r with ⟨st, rem, resa, reta⟩
  cases rem <;> cases resa <;> cases reta <;>
    simp only [update_rate_limit_info] <;> split_ifs <;> rfl

/-- A 429 response carrying Retry-After ra leaves the limiter with an active
reset window of exactly ra. -/
theorem update_429_sets_reset (s : RLState) (r : HttpResponse) (ra : ℚ)
    (h429 : r.status = 429) (hra : r.retry_after = some ra) :
    (update_rate_limit_info s r).rate_limit_reset_after = some ra := by
  rcases r with ⟨st, rem, resa, reta⟩
  simp only at h429 hra
  subst h429; subst hra
  cases rem <;> cases resa <;> simp [update_rate_limit_info]

/-- C6: if the sink answers call N (issued when the first wait ended) with a
429 carrying Retry-After = ra, then the wait before call N+1 does not end —
so call N+1 is not issued — before ra seconds after call N. -/
theorem retry_after_honored (s0 : RLState) (now0 now1 ra : ℚ) (resp : HttpResponse)
    (h429 : resp.status = 429) (hra : resp.retry_after = some ra) :
    (wait_for_rate_limit s0 now0).1 + ra ≤
      (wait_for_rate_limit
        (update_rate_limit_info (wait_for_rate_limit s0 now0).2 resp) now1).1 := by
  have h1 := wait_result_ge_reset
    (update_rate_limit_info (wait_for_rate_limit s0 now0).2 resp) now1 ra
    (update_429_sets_reset _ resp ra h429 hra)
  rwa [update_preserves_last, wait_last_request_time] at h1

/-- Witness for C6 at the spec example: Retry-After 2 s observed at a call
issued at time 10; the next call is not issued before time 12 even when
attempted at 10.5. -/
theorem retry_after_honored_witness :
    (wait_for_rate_limit RLState.init 10).1 + 2 ≤
      (wait_for_rate_limit
        (update_rate_limit_info (wait_for_rate_limit RLState.init 10).2
          ⟨429, none, none, some 2⟩) (21 / 2)).1 :=
  retry_after_honored RLState.init 10 (21 / 2) 2 ⟨429, none, none, some 2⟩ rfl rfl

/-- C7: if the POST of an error report itself fails (timeout, connection error,
or a 429 rate limit), send_error_to_discord appends the error text directly to
the durable queue and returns False having made exactly one POST — the failure
is not re-reported synchronously, so no reporting loop arises and the error is
not lost. -/
theorem error_report_failure_queued_directly (w : DeliveryWorld) (m ts : String)
    (h : w.sink w.calls = .timeout ∨ (∃ e, w.sink w.calls = .connectionError e)
      ∨ (∃ ra, w.sink w.calls = .response 429 ra)) :
    send_error_to_discord w m ts =
      (false, ⟨w.sink, w.calls + 1,
        .valid ((load_error_queue w.store).1 ++ [.errorMessage m ts])⟩) := by
  rcases h with h | ⟨e, h⟩ | ⟨ra, h⟩ <;>
    simp [send_error_to_discord, doPost, queue_error, h]

/-- Witness for C7: a sink that times out; the report lands in the queue after
one POST. -/
theorem error_report_failure_queued_directly_witness :
    send_error_to_discord ⟨fun _ => .timeout, 0, .valid []⟩ "boom" "t0" =
      (false, ⟨(⟨fun _ => .timeout, 0, .valid []⟩ : DeliveryWorld).sink, 1,
        .valid [.errorMessage "boom" "t0"]⟩) :=
  error_report_failure_queued_directly ⟨fun _ => .timeout, 0, .valid []⟩ "boom" "t0"
    (Or.inl rfl)

/-- C2 (amended): how send_to_discord routes non-success.  Only a 429 stores
the payload itself (as a rateLimitedMessage); a timeout, connection error, or
HTTP error hands a descriptive error string to send_error_to_discord, and that
report leaves the durable queue unchanged when it succeeds, or appends only
the errorMessage text — never the payload — when it fails. -/
theorem send_to_discord_failure_routing (w : DeliveryWorld) (md : MessageData)
    (mt ts : String) (hmt : mt = "incoming" ∨ mt = "outgoing") :
    (∀ ra, w.sink w.calls = .response 429 ra →
      send_to_discord w md mt ts =
        (false, ⟨w.sink, w.calls + 1,
          .valid ((load_error_queue w.store).1 ++ [.rateLimitedMessage md mt ts])⟩))
    ∧ (w.sink w.calls = .timeout →
      send_to_discord w md mt ts =
        (false, (send_error_to_discord ⟨w.sink, w.calls + 1, w.store⟩
          (timeout_error_msg md) ts).2))
    ∧ (∀ e, w.sink w.calls = .connectionError e →
      send_to_discord w md mt ts =
        (false, (send_error_to_discord ⟨w.sink, w.calls + 1, w.store⟩
          (network_error_msg md e) ts).2))
    ∧ (∀ st ra, w.sink w.calls = .response st ra → st ≠ 429 → 400 ≤ st →
      send_to_discord w md mt ts =
        (false, (send_error_to_discord ⟨w.sink, w.calls + 1, w.store⟩
          (network_error_msg md (toString st)) ts).2))
    ∧ (∀ w2 m ts2, (send_error_to_discord w2 m ts2).2.store = w2.store
        ∨ (send_error_to_discord w2 m ts2).2.store =
          .valid ((load_error_queue w2.store).1 ++ [.errorMessage m ts2])) := by
  have hneg : ¬(mt ≠ "incoming" ∧ mt ≠ "outgoing") := by
    rcases hmt with h | h <;> simp [h]
  refine ⟨?_, ?_, ?_, ?_, ?_⟩
  · intro ra h
    simp [send_to_discord, hneg, doPost, h]
  · intro h
    simp [send_to_discord, hneg, doPost, h]
  · intro e h
    simp [send_to_discord, hneg, doPost, h]
  · intro st ra h hne hge
    have h429 : ¬ st = 429 := hne
    have h400 : ¬ st < 400 := by omega
    simp [send_to_discord, hneg, doPost, h, h429, h400]
  · intro w2 m ts2
    cases hsr : w2.sink w2.calls with
    | response st ra =>
      simp only [send_error_to_discord, doPost, hsr, queue_error]
      split_ifs <;> simp
    | timeout => simp [send_error_to_discord, doPost, hsr, queue_error]
    | connectionError e => simp [send_error_to_discord, doPost, hsr, queue_error]

/-- Counterexample to C2 as stated: a delivery that times out, against a world
whose error report then succeeds, ends in non-success with the durable queue
still empty — the payload is discarded without being queued. -/
theorem timeout_payload_discarded :
    (send_to_discord w_timeout md0 "incoming" "ts").1 = false
    ∧ (send_to_discord w_timeout md0 "incoming" "ts").2.store = .valid []
    ∧ (send_to_discord w_timeout md0 "incoming" "ts").2.calls = 2 := by
  decide

/-- Witness for C2 (amended), 429 branch: the payload is queued as a
rateLimitedMessage entry. -/
theorem send_to_discord_failure_routing_witness :
    send_to_discord ⟨rateLimitedSink, 0, .valid []⟩ md0 "incoming" "ts" =
      (false, ⟨rateLimitedSink, 1, .valid [.rateLimitedMessage md0 "incoming" "ts"]⟩) := by
  have h := (send_to_discord_failure_routing ⟨rateLimitedSink, 0, .valid []⟩ md0
    "incoming" "ts" (Or.inl rfl)).1 (some 2) rfl
  simpa using h

/-- Counterexample to C3 as stated: on a cold start against an empty source the
fetch returns zero messages, not exactly one. -/
theorem cold_start_empty_source :
    (get_new_messages [] (load_state .missing).1 (load_state .missing).2).1 = [] := by
  decide

/-- C3 (amended): on a cold start (missing or corrupted state file) the fetch
issues a single list() request for at most one message: it returns the one-
element prefix of the listing — the single most recent message whenever the
source is non-empty — and never full history or any larger batch. -/
theorem cold_start_at_most_one (sf : StateFileContent) (pages : List (List String))
    (h : (load_state sf).2 = true) :
    (get_new_messages pages (load_state sf).1 (load_state sf).2).1 =
      (listing_join pages).take 1
    ∧ (get_new_messages pages (load_state sf).1 (load_state sf).2).1.length ≤ 1
    ∧ (get_new_messages pages (load_state sf).1 (load_state sf).2).2 = 1
    ∧ (∀ m rest, listing_join pages = m :: rest →
        (get_new_messages pages (load_state sf).1 (load_state sf).2).1 = [m]) := by
  rw [h]
  refine ⟨rfl, ?_, rfl, ?_⟩
  · have hl : ((listing_join pages).take 1).length ≤ 1 := by
      rw [List.length_take]; omega
    simpa only [get_new_messages, if_true] using hl
  · intro m rest hj
    simp [get_new_messages, hj]

/-- Witness for C3 (amended): a one-page listing with a single message yields
exactly that message on cold start. -/
theorem cold_start_at_most_one_witness :
    (get_new_messages [["idX"]] (load_state .missing).1 (load_state .missing).2).1
      = ["idX"] :=
  (cold_start_at_most_one .missing [["idX"]] rfl).2.2.2 "idX" [] rfl

/-- Scanning a page that does not contain the watermark appends the whole page
and reports not-found. -/
theorem scanPage_not_found (wm : String) (page : List String) :
    ∀ acc, wm ∉ page → scanPage wm acc page = (acc ++ page, false) := by
  induction page with
  | nil => intro acc _; simp [scanPage]
  | cons m ms ih =>
    intro acc h
    have hm : ¬ m = wm := fun hmw => h (hmw ▸ List.mem_cons_self m ms)
    have htl : wm ∉ ms := fun hms => h (List.mem_cons_of_mem m hms)
    simp only [scanPage, if_neg hm]
    rw [ih (acc ++ [m]) htl]
    simp

/-- Scanning a page containing the watermark appends exactly the ids strictly
before its first occurrence and reports found. -/
theorem scanPage_found (wm : String) (page : List String) :
    ∀ acc, wm ∈ page →
      scanPage wm acc page = (acc ++ page.takeWhile (fun m => m != wm), true) := by
  induction page with
  | nil => intro acc h; simp at h
  | cons m ms ih =>
    intro acc h
    by_cases hm : m = wm
    · subst hm
      simp [scanPage]
    · have htl : wm ∈ ms := by
        rcases List.mem_cons.mp h with h1 | h1
        · exact absurd h1.symm hm
        · exact h1
      have hb : (m != wm) = true := by simp [hm]
      simp only [scanPage, if_neg hm]
      rw [ih (acc ++ [m]) htl]
      simp [hb]

/-- Appending after a list containing the watermark does not change the
strictly-newer prefix. -/
theorem takeWhile_append_stop (wm : String) (l1 l2 : List String) (h : wm ∈ l1) :
    (l1 ++ l2).takeWhile (fun m => m != wm) = l1.takeWhile (fun m => m != wm) := by
  induction l1 with
  | nil => simp at h
  | cons a l ih =>
    by_cases ha : a = wm
    · subst ha; simp
    · have htl : wm ∈ l := by
        rcases List.mem_cons.mp h with h1 | h1
        · exact absurd h1.symm ha
        · exact h1
      have hb : (a != wm) = true := by simp [ha]
      simp [List.takeWhile_cons, hb, ih htl]

/-- The paginated loop of get_new_messages: when the watermark first occurs on
page k (pages before it non-empty), the loop issues exactly k+1 page requests
and accumulates the listing prefix strictly before the watermark. -/
theorem fetch_loop_spec (wm : String) :
    ∀ (k : Nat) (pages : List (List String)) (acc : List String) (reqs : Nat),
      k < pages.length →
      wm ∈ pages.getD k [] →
      (∀ j, j < k → wm ∉ pages.getD j [] ∧ pages.getD j [] ≠ []) →
      fetch_loop wm pages acc reqs =
        (acc ++ (listing_join pages).takeWhile (fun m => m != wm), reqs + (k + 1)) := by
  intro k
  induction k with
  | zero =>
    intro pages acc reqs hk hmem _
    cases pages with
    | nil => simp at hk
    | cons p rest =>
      simp only [List.getD_cons_zero] at hmem
      have hp : ¬ p = [] := List.ne_nil_of_mem hmem
      have hscan := scanPage_found wm p acc hmem
      simp only [fetch_loop, if_neg hp, hscan]
      simp [listing_join, takeWhile_append_stop wm p rest.flatten hmem]
  | succ k ih =>
    intro pages acc reqs hk hmem hprev
    cases pages with
    | nil => simp at hk
    | cons p rest =>
      have h0 := hprev 0 (Nat.succ_pos k)
      simp only [List.getD_cons_zero] at h0
      have hscan := scanPage_not_found wm p acc h0.1
      have hk1 : k < rest.length := by
        simpa [Nat.succ_lt_succ_iff] using hk
      have hrest : ¬ rest = [] := by
        intro he; rw [he] at hk1; simp at hk1
      simp only [List.getD_cons_succ] at hmem
      have hprev1 : ∀ j, j < k → wm ∉ rest.getD j [] ∧ rest.getD j [] ≠ [] := by
        intro j hj
        have := hprev (j + 1) (Nat.succ_lt_succ hj)
        simpa using this
      simp only [fetch_loop, if_neg h0.2, hscan]
      have hrec := ih rest (acc ++ p) (reqs + 1) hk1 hmem hprev1
      have hall : ∀ x ∈ p, (x != wm) = true := by
        intro x hx
        have : ¬ x = wm := fun hxw => h0.1 (hxw ▸ hx)
        simp [this]
      simp only [if_neg hrest]
      rw [hrec]
      simp [listing_join, List.takeWhile_append_of_pos hall, List.append_assoc]
      omega

/-- C4: a fetch with a present watermark that first meets the watermark id on
page k issues exactly k+1 page requests — none for page k+1 — and returns the
listing ids strictly newer than the watermark: the watermark id itself and
everything at or before it is excluded. -/
theorem fetch_stops_at_watermark (pages : List (List String)) (wm : String) (k : Nat)
    (hwm : wm ≠ "")
    (hk : k < pages.length)
    (hmem : wm ∈ pages.getD k [])
    (hprev : ∀ j, j < k → wm ∉ pages.getD j [] ∧ pages.getD j [] ≠ []) :
    get_new_messages pages (some wm) false =
      ((listing_join pages).takeWhile (fun m => m != wm), k + 1)
    ∧ (∀ m ∈ (get_new_messages pages (some wm) false).1, m ≠ wm) := by
  have hmain := fetch_loop_spec wm k pages [] 0 hk hmem hprev
  have hget : get_new_messages pages (some wm) false =
      ((listing_join pages).takeWhile (fun m => m != wm), k + 1) := by
    simp [get_new_messages, hwm, hmain]
  refine ⟨hget, ?_⟩
  intro m hm
  rw [hget] at hm
  have := List.mem_takeWhile_imp hm
  simpa using this

/-- Witness for C4: watermark id5 first occurring on page 1 (zero-based) of a
two-page listing: two requests, result [id8, id7, id6]. -/
theorem fetch_stops_at_watermark_witness :
    get_new_messages [["id8", "id7"], ["id6", "id5"]] (some "id5") false =
      ((listing_join [["id8", "id7"], ["id6", "id5"]]).takeWhile (fun m => m != "id5"),
        1 + 1)
    ∧ (∀ m ∈ (get_new_messages [["id8", "id7"], ["id6", "id5"]] (some "id5") false).1,
        m ≠ "id5") :=
  fetch_stops_at_watermark [["id8", "id7"], ["id6", "id5"]] "id5" 1 (by decide)
    (by decide) (by decide)
    (by intro j hj; interval_cases j; simp)

/-- Counterexample to C5 as stated: with watermark id5 and listing
[id8, id7, id6, id5] the fetch operation returns [id8, id7, id6] — newest
first — not the oldest-first [id6, id7, id8]. -/
theorem fetch_returns_newest_first :
    (get_new_messages [["id8", "id7", "id6", "id5"]] (some "id5") false).1
      = ["id8", "id7", "id6"]
    ∧ (get_new_messages [["id8", "id7", "id6", "id5"]] (some "id5") false).1
      ≠ ["id6", "id7", "id8"] := by
  decide

/-- A flush produces exactly one replay outcome per queued entry. -/
theorem replay_results_length (ts : String) :
    ∀ (q : List QueueEntry) (w : DeliveryWorld),
      (replay_results w ts q).1.length = q.length := by
  intro q
  induction q with
  | nil => intro w; rfl
  | cons e rest ih => intro w; simp [replay_results, ih]

/-- The processed list of the flush loop is the sublist of entries whose
replay outcome was success. -/
theorem flush_loop_eq_selectBy (ts : String) :
    ∀ (q : List QueueEntry) (w : DeliveryWorld),
      flush_loop w ts q =
        (selectBy true q (replay_results w ts q).1, (replay_results w ts q).2) := by
  intro q
  induction q with
  | nil => intro w; rfl
  | cons e rest ih =>
    intro w
    cases hf : (replay_one w ts e).1 <;>
      simp [flush_loop, replay_results, hf, selectBy, ih]

/-- Selected entries come from the queue. -/
theorem mem_selectBy (b : Bool) :
    ∀ (q : List QueueEntry) (fs : List Bool) (x : QueueEntry),
      x ∈ selectBy b q fs → x ∈ q := by
  intro q
  induction q with
  | nil => intro fs x h; simp [selectBy] at h
  | cons e es ih =>
    intro fs x h
    cases fs with
    | nil => simp [selectBy] at h
    | cons f fs2 =>
      simp only [selectBy] at h
      by_cases hf : f = b
      · rw [if_pos hf] at h
        rcases List.mem_cons.mp h with h1 | h1
        · exact h1 ▸ List.mem_cons_self e es
        · exact List.mem_cons_of_mem e (ih fs2 x h1)
      · rw [if_neg hf] at h
        exact List.mem_cons_of_mem e (ih fs2 x h)

/-- On a duplicate-free queue, removing the successfully replayed entries by
membership keeps exactly the entries whose replay failed. -/
theorem filter_selectBy :
    ∀ (q : List QueueEntry) (fs : List Bool), fs.length = q.length → q.Nodup →
      q.filter (fun e => decide (e ∉ selectBy true q fs)) = selectBy false q fs := by
  intro q
  induction q with
  | nil => intro fs _ _; simp [selectBy]
  | cons e es ih =>
    intro fs hlen hnd
    cases fs with
    | nil => simp at hlen
    | cons f fs2 =>
      have hlen2 : fs2.length = es.length := by simpa using hlen
      have hene : e ∉ es := (List.nodup_cons.mp hnd).1
      have hnd2 : es.Nodup := (List.nodup_cons.mp hnd).2
      cases f with
      | true =>
        have hsel : selectBy true (e :: es) (true :: fs2) = e :: selectBy true es fs2 := by
          simp [selectBy]
        have hmem : e ∈ selectBy true (e :: es) (true :: fs2) := by
          rw [hsel]; exact List.mem_cons_self e _
        rw [List.filter_cons, if_neg (by simp [hmem])]
        have hcongr : es.filter (fun x => decide (x ∉ selectBy true (e :: es) (true :: fs2)))
            = es.filter (fun x => decide (x ∉ selectBy true es fs2)) := by
          apply List.filter_congr
          intro x hx
          have hxe : x ≠ e := fun hxeq => hene (hxeq ▸ hx)
          simp [hsel, hxe]
        rw [hcongr, ih fs2 hlen2 hnd2]
        simp [selectBy]
      | false =>
        have hsel : selectBy true (e :: es) (false :: fs2) = selectBy true es fs2 := by
          simp [selectBy]
        have hno : e ∉ selectBy true (e :: es) (false :: fs2) := by
          rw [hsel]
          exact fun hmem => hene (mem_selectBy true es fs2 e hmem)
        rw [List.filter_cons, if_pos (by simp [hno])]
        have hcongr : es.filter (fun x => decide (x ∉ selectBy true (e :: es) (false :: fs2)))
            = es.filter (fun x => decide (x ∉ selectBy true es fs2)) := by
          apply List.filter_congr
          intro x hx
          simp [hsel]
        rw [hcongr, ih fs2 hlen2 hnd2]
        simp [selectBy]

/-- Against a sink that accepts every POST, replaying any well-typed entry
succeeds in exactly one POST and leaves the store untouched. -/
theorem replay_one_accepting (w : DeliveryWorld) (ts : String) (e : QueueEntry)
    (hs : ∀ n, w.sink n = .response 204 none) (he : entryTypeOk e = true) :
    replay_one w ts e = (true, ⟨w.sink, w.calls + 1, w.store⟩) := by
  cases e with
  | rateLimitedMessage d mt t =>
    have hmt : mt = "incoming" ∨ mt = "outgoing" := by
      simpa [entryTypeOk] using he
    have hneg : ¬(mt ≠ "incoming" ∧ mt ≠ "outgoing") := by
      rcases hmt with h | h <;> simp [h]
    simp [replay_one, send_to_discord, hneg, doPost, hs w.calls]
  | errorMessage m t =>
    simp [replay_one, send_error_to_discord, doPost, hs w.calls]
  | legacy m =>
    simp [replay_one, send_error_to_discord, doPost, hs w.calls]

/-- Against an accepting sink, the flush loop replays everything: the
processed list is the whole queue and exactly one POST is spent per entry. -/
theorem flush_loop_accepting (ts : String) :
    ∀ (q : List QueueEntry) (w : DeliveryWorld),
      (∀ n, w.sink n = .response 204 none) →
      (∀ e ∈ q, entryTypeOk e = true) →
      flush_loop w ts q = (q, ⟨w.sink, w.calls + q.length, w.store⟩) := by
  intro q
  induction q with
  | nil => intro w _ _; simp [flush_loop]
  | cons e rest ih =>
    intro w hs he
    have h1 := replay_one_accepting w ts e hs (he e (List.mem_cons_self e rest))
    have h2 := ih ⟨w.sink, w.calls + 1, w.store⟩ hs
      (fun x hx => he x (List.mem_cons_of_mem e hx))
    simp only [flush_loop, h1, h2]
    have hc : w.calls + 1 + rest.length = w.calls + (e :: rest).length := by
      simp [List.length_cons]; omega
    simp [hc]

/-- C8 (amended): a flush replays each queued entry exactly once (one outcome
per entry, in order); on a duplicate-free queue the rewritten store holds
exactly the entries whose replay failed, in their original order; and against
a sink that accepts everything the store ends empty with exactly one POST
spent per entry.  (With duplicates, membership-based removal can also drop a
still-failing copy of a successfully replayed entry.) -/
theorem flush_characterization (w : DeliveryWorld) (ts : String) :
    (replay_results (after_load w) ts (loaded_queue w)).1.length = (loaded_queue w).length
    ∧ ((loaded_queue w).Nodup →
        (process_queued_errors w ts).store =
          .valid (selectBy false (loaded_queue w)
            (replay_results (after_load w) ts (loaded_queue w)).1))
    ∧ ((∀ n, w.sink n = .response 204 none) →
        (∀ e ∈ loaded_queue w, entryTypeOk e = true) →
        (process_queued_errors w ts).store = .valid []
        ∧ (process_queued_errors w ts).calls = w.calls + (loaded_queue w).length) := by
  refine ⟨replay_results_length ts _ _, ?_, ?_⟩
  · intro hnd
    by_cases hq : (load_error_queue w.store).1 = []
    · have hq2 : loaded_queue w = [] := hq
      rw [hq2]
      have hst : (process_queued_errors w ts).store = (load_error_queue w.store).2 := by
        simp [process_queued_errors, hq]
      rw [hst]
      cases hw : w.store with
      | missing => simp [load_error_queue, selectBy]
      | corrupted r => simp [load_error_queue, selectBy]
      | valid q =>
        rw [hw] at hq
        simp only [load_error_queue] at hq ⊢
        subst hq
        simp [selectBy]
    · have hst : (process_queued_errors w ts).store =
          .valid ((load_error_queue w.store).1.filter
            (fun e => decide
              (e ∉ (flush_loop (after_load w) ts (load_error_queue w.store).1).1))) := by
        simp [process_queued_errors, hq, after_load]
      rw [hst]
      simp only [flush_loop_eq_selectBy]
      rw [filter_selectBy (load_error_queue w.store).1
        (replay_results (after_load w) ts (load_error_queue w.store).1).1
        (replay_results_length ts _ _) hnd]
      rfl
  · intro hs he
    by_cases hq : (load_error_queue w.store).1 = []
    · have hcalls : (process_queued_errors w ts).calls = w.calls := by
        simp [process_queued_errors, hq]
      have hst : (process_queued_errors w ts).store = (load_error_queue w.store).2 := by
        simp [process_queued_errors, hq]
      refine ⟨?_, ?_⟩
      · rw [hst]
        cases hw : w.store with
        | missing => simp [load_error_queue]
        | corrupted r => simp [load_error_queue]
        | valid q =>
          rw [hw] at hq
          simp only [load_error_queue] at hq ⊢
          subst hq
          rfl
      · rw [hcalls]
        have : loaded_queue w = [] := hq
        rw [this]
        simp
    · have hfl := flush_loop_accepting ts (load_error_queue w.store).1 (after_load w) hs he
      have hst : (process_queued_errors w ts).store =
          .valid ((load_error_queue w.store).1.filter
            (fun e => decide
              (e ∉ (flush_loop (after_load w) ts (load_error_queue w.store).1).1))) := by
        simp [process_queued_errors, hq, after_load]
      have hcalls : (process_queued_errors w ts).calls =
          (flush_loop (after_load w) ts (load_error_queue w.store).1).2.calls := by
        simp [process_queued_errors, hq, after_load]
      refine ⟨?_, ?_⟩
      · rw [hst, hfl]
        have : (load_error_queue w.store).1.filter
            (fun e => decide (e ∉ (load_error_queue w.store).1)) = [] :=
          List.filter_eq_nil_iff.mpr (fun a ha => by simp [ha])
        simp only [this]
      · rw [hcalls, hfl]
        simp [after_load, loaded_queue]

/-- Counterexample to C8 as stated: a queue holding the same entry twice,
against a sink that accepts the first replay and fails the second, ends with
an empty store even though the second copy is still failing — the rewritten
store does not contain exactly the still-failing items. -/
theorem flush_drops_duplicate_still_failing :
    (process_queued_errors w_dup "t1").store = .valid []
    ∧ (replay_results (after_load w_dup) "t1" [dupEntry, dupEntry]).1 = [true, false] := by
  decide

/-- Witness for C8 (amended): three distinct queued failed deliveries flushed
against a healthy sink leave the queue empty after exactly three POSTs. -/
theorem flush_characterization_witness :
    (process_queued_errors w_q3 "t9").store = .valid []
    ∧ (process_queued_errors w_q3 "t9").calls = 3 := by
  have h := (flush_characterization w_q3 "t9").2.2 (fun n => rfl) (by decide)
  simpa [w_q3, loaded_queue, load_error_queue, q3] using h

/-- One header-loop step changes the recipient field exactly when the header
name is To, to the raw header value. -/
theorem header_upd_recipient (acc : HeaderFields) (h : String × String) :
    (header_upd acc h).recipient = if h.1 = "To" then h.2 else acc.recipient := by
  simp only [header_upd]
  split_ifs <;> simp_all

/-- The recipient after the header loop is the value of the last To header,
or the starting value when none occurs. -/
theorem foldl_header_upd_recipient :
    ∀ (hs : List (String × String)) (acc : HeaderFields),
      (hs.foldl header_upd acc).recipient =
        (((hs.reverse.find? (fun x => x.1 == "To")).map Prod.snd).getD acc.recipient) := by
  intro hs
  induction hs with
  | nil => intro acc; simp
  | cons h t ih =>
    intro acc
    rw [List.foldl_cons, ih, List.reverse_cons, List.find?_append]
    cases hf : t.reverse.find? (fun x => x.1 == "To") with
    | some x => simp [hf]
    | none =>
      simp only [hf, Option.none_or]
      rw [header_upd_recipient]
      by_cases ht : h.1 = "To" <;> simp [ht]

/-- C9 (amended): normalization performs no hidden-recipients sanitization:
the record carries the value of the last To header verbatim — hidden-pattern
or empty values included — and the sentinel Unknown Recipient only when no To
header is present.  No placeholder substitution happens. -/
theorem recipient_passthrough (env : CycleEnv) (w : DeliveryWorld) (id : String)
    (raw : RawMessage) (hdet : env.details id = some raw)
    (hfil : is_filtered_message raw.headers raw.labelIds = false) :
    ((process_message env w id).1.map (fun x => x.1.recipient)) =
      some (((raw.headers.reverse.find? (fun x => x.1 == "To")).map Prod.snd).getD
        "Unknown Recipient") := by
  simp [process_message, hdet, hfil, foldl_header_upd_recipient, init_fields]

/-- Counterexample to C9 as stated: a To header matching the hidden-recipients
pattern, and an empty To header, both reach the notification record verbatim —
no fixed placeholder is substituted. -/
theorem recipient_not_sanitized :
    ((process_message envH w_ok "h").1.map (fun x => x.1.recipient))
      = some "undisclosed-recipients:;"
    ∧ ((process_message envH w_ok "e").1.map (fun x => x.1.recipient)) = some "" := by
  decide

/-- Witness for C9 (amended) on the hidden-recipients message. -/
theorem recipient_passthrough_witness :
    ((process_message envH w_ok "h").1.map (fun x => x.1.recipient)) =
      some (((rawHidden.headers.reverse.find? (fun x => x.1 == "To")).map Prod.snd).getD
        "Unknown Recipient") :=
  recipient_passthrough envH w_ok "h" rawHidden rfl rfl

/-- When every fetched id resolves to an unfiltered raw message, the
processing loop keeps them all, in its input order, stamped with their ids. -/
theorem process_loop_all_ok (env : CycleEnv) :
    ∀ (msgs : List String) (w : DeliveryWorld) (latest : Option String × ℚ),
      (∀ id ∈ msgs, ∃ raw, env.details id = some raw
        ∧ is_filtered_message raw.headers raw.labelIds = false) →
      (process_loop env w latest msgs).1.map (fun x => x.1.message_id) = msgs := by
  intro msgs
  induction msgs with
  | nil => intro w latest _; rfl
  | cons id rest ih =>
    intro w latest hall
    obtain ⟨raw, hdet, hfil⟩ := hall id (List.mem_cons_self id rest)
    have hrest : ∀ i ∈ rest, ∃ raw, env.details i = some raw
        ∧ is_filtered_message raw.headers raw.labelIds = false :=
      fun i hi => hall i (List.mem_cons_of_mem id hi)
    simp [process_loop, process_message, hdet, hfil, ih _ _ hrest]

/-- The delivery loop sends exactly the processed records, in order. -/
theorem deliver_loop_ids (ts : String) :
    ∀ (l : List (MessageData × String)) (w : DeliveryWorld),
      (deliver_loop w ts l).1.map (fun x => x.1.message_id)
        = l.map (fun x => x.1.message_id) := by
  intro l
  induction l with
  | nil => intro w; rfl
  | cons p rest ih =>
    intro w
    rcases p with ⟨md, mt⟩
    simp [deliver_loop, ih]

/-- C5 (amended): the fetch returns ids newest first; the main loop reverses
them before processing, so the records a cycle delivers are exactly the
fetched ids oldest first (the reverse of the fetch result). -/
theorem cycle_delivers_oldest_first (env : CycleEnv) (w : DeliveryWorld) (s : LoopState)
    (hall : ∀ id ∈ (get_new_messages env.pages s.last_message_id s.is_first_run).1,
      ∃ raw, env.details id = some raw
        ∧ is_filtered_message raw.headers raw.labelIds = false) :
    ((run_cycle env w s).2.2.map (fun x => x.1.message_id)) =
      (get_new_messages env.pages s.last_message_id s.is_first_run).1.reverse := by
  by_cases hm : (get_new_messages env.pages s.last_message_id s.is_first_run).1 = []
  · simp [run_cycle, hm]
  · have hrev : ∀ id ∈ (get_new_messages env.pages s.last_message_id s.is_first_run).1.reverse,
        ∃ raw, env.details id = some raw
          ∧ is_filtered_message raw.headers raw.labelIds = false :=
      fun id hi => hall id (List.mem_reverse.mp hi)
    simp only [run_cycle, if_neg hm]
    rw [deliver_loop_ids, process_loop_all_ok env _ _ _ hrev]

/-- Witness for C5 (amended), the spec scenario: watermark id5, listing
[id8, id7, id6, id5]; the cycle delivers id6, id7, id8 in that order. -/
theorem cycle_delivers_oldest_first_witness :
    ((run_cycle env58 w_ok s5).2.2.map (fun x => x.1.message_id)) =
      ["id6", "id7", "id8"] := by
  have hfetch : (get_new_messages env58.pages s5.last_message_id s5.is_first_run).1
      = ["id8", "id7", "id6"] := by decide
  have hall : ∀ id ∈ (get_new_messages env58.pages s5.last_message_id s5.is_first_run).1,
      ∃ raw, env58.details id = some raw
        ∧ is_filtered_message raw.headers raw.labelIds = false := by
    rw [hfetch]
    intro id hid
    fin_cases hid
    · exact ⟨raw8, rfl, rfl⟩
    · exact ⟨raw7, rfl, rfl⟩
    · exact ⟨raw6, rfl, rfl⟩
  rw [cycle_delivers_oldest_first env58 w_ok s5 hall, hfetch]
  rfl

/-- Counterexample to C1 as stated: one cycle fetches the single new message
idA; its delivery times out and the resulting error report succeeds, so idA is
neither delivered nor queued (the durable queue ends empty and the only send
outcome is failure) — yet the persisted watermark advances to idA. -/
theorem watermark_advances_without_accounting :
    (run_cycle envA w_timeout sA).2.1 =
      ({ last_message_id := some "idA", is_first_run := false,
         state_file := some "idA" } : LoopState)
    ∧ (run_cycle envA w_timeout sA).1.store = .valid []
    ∧ (run_cycle envA w_timeout sA).2.2.map (fun x => x.2.2) = [false] := by
  have hpos : ((((some (1000 : Int)).getD 0 : Int) : ℚ) / 1000) > (0 : ℚ) := by
    norm_num
  refine ⟨?_, ?_, ?_⟩ <;>
    simp [run_cycle, get_new_messages, listing_join, fetch_loop, scanPage,
      process_loop, process_message, envA, sA, w_timeout, rawA, is_filtered_message,
      convert_to_discord_timestamp, init_fields, header_upd, deliver_loop,
      send_to_discord, send_error_to_discord, doPost, queue_error, timeoutThenOk,
      process_queued_errors, load_error_queue, timeout_error_msg, hpos]

/-- The record a processed id yields does not depend on the delivery world. -/
theorem process_message_fst_indep (env : CycleEnv) (id : String)
    (w1 w2 : DeliveryWorld) :
    (process_message env w1 id).1 = (process_message env w2 id).1 := by
  cases hd : env.details id with
  | none => simp [process_message, hd]
  | some raw =>
    by_cases hf : is_filtered_message raw.headers raw.labelIds <;>
      simp [process_message, hd, hf]

/-- A successfully processed id stamps itself as the message_id of its
record. -/
theorem process_message_some_id (env : CycleEnv) (w : DeliveryWorld) (id : String)
    (md : MessageData) (mt : String)
    (h : (process_message env w id).1 = some (md, mt)) : md.message_id = id := by
  cases hd : env.details id with
  | none => simp [process_message, hd] at h
  | some raw =>
    by_cases hf : is_filtered_message raw.headers raw.labelIds
    · simp [process_message, hd, hf] at h
    · simp [process_message, hd, hf] at h
      rw [← h.1]

/-- The processed list and the tracked latest id of the processing loop do not
depend on the delivery world. -/
theorem process_loop_indep (env : CycleEnv) :
    ∀ (msgs : List String) (latest : Option String × ℚ) (w1 w2 : DeliveryWorld),
      (process_loop env w1 latest msgs).1 = (process_loop env w2 latest msgs).1
      ∧ (process_loop env w1 latest msgs).2.1 = (process_loop env w2 latest msgs).2.1 := by
  intro msgs
  induction msgs with
  | nil => intro latest w1 w2; exact ⟨rfl, rfl⟩
  | cons id rest ih =>
    intro latest w1 w2
    have heq := process_message_fst_indep env id w1 w2
    cases h1 : (process_message env w1 id).1 with
    | none =>
      have h2 : (process_message env w2 id).1 = none := heq ▸ h1
      simp only [process_loop, h1, h2]
      exact ih latest _ _
    | some p =>
      have h2 : (process_message env w2 id).1 = some p := heq ▸ h1
      rcases p with ⟨md, mt⟩
      simp only [process_loop, h1, h2]
      refine ⟨?_, (ih _ _ _).2⟩
      rw [(ih _ _ _).1]

/-- The latest id tracked by the processing loop is either its starting value
or the id of one of the processed messages. -/
theorem process_loop_latest_cases (env : CycleEnv) :
    ∀ (msgs : List String) (w : DeliveryWorld) (latest : Option String × ℚ),
      (process_loop env w latest msgs).2.1.1 = latest.1
      ∨ ∃ id ∈ msgs, (process_loop env w latest msgs).2.1.1 = some id := by
  intro msgs
  induction msgs with
  | nil => intro w latest; exact Or.inl rfl
  | cons id rest ih =>
    intro w latest
    cases h1 : (process_message env w id).1 with
    | none =>
      simp only [process_loop, h1]
      rcases ih _ latest with h | ⟨i, hi, h⟩
      · exact Or.inl h
      · exact Or.inr ⟨i, List.mem_cons_of_mem id hi, h⟩
    | some p =>
      rcases p with ⟨md, mt⟩
      have hid := process_message_some_id env w id md mt h1
      simp only [process_loop, h1]
      by_cases hgt : md.internal_date > latest.2
      · rcases ih _ (some md.message_id, md.internal_date) with h | ⟨i, hi, h⟩
        · refine Or.inr ⟨id, List.mem_cons_self id rest, ?_⟩
          simp only [if_pos hgt] at h ⊢
          rw [h, hid]
        · refine Or.inr ⟨i, List.mem_cons_of_mem id hi, ?_⟩
          simpa [if_pos hgt] using h
      · rcases ih _ latest with h | ⟨i, hi, h⟩
        · refine Or.inl ?_
          simpa [if_neg hgt] using h
        · refine Or.inr ⟨i, List.mem_cons_of_mem id hi, ?_⟩
          simpa [if_neg hgt] using h

/-- C1 (amended): the watermark a cycle persists is computed from the fetch
and the message metadata alone — it is identical for any two delivery worlds,
i.e. independent of whether each delivery succeeded, was queued, or failed
unqueued — and it either stays at its previous value or becomes the id of one
of the messages fetched this cycle (hence never an older one). -/
theorem watermark_update_characterization (env : CycleEnv) (s : LoopState) :
    (∀ w1 w2 : DeliveryWorld, (run_cycle env w1 s).2.1 = (run_cycle env w2 s).2.1)
    ∧ (∀ w : DeliveryWorld,
        ((run_cycle env w s).2.1.last_message_id = s.last_message_id
          ∧ (run_cycle env w s).2.1.state_file = s.state_file)
        ∨ (∃ id ∈ (get_new_messages env.pages s.last_message_id s.is_first_run).1,
            (run_cycle env w s).2.1.last_message_id = some id
            ∧ (run_cycle env w s).2.1.state_file = some id)) := by
  constructor
  · intro w1 w2
    by_cases hm : (get_new_messages env.pages s.last_message_id s.is_first_run).1 = []
    · simp [run_cycle, hm]
    · simp only [run_cycle, if_neg hm]
      rw [(process_loop_indep env
        (get_new_messages env.pages s.last_message_id s.is_first_run).1.reverse
        (s.last_message_id, 0) w1 w2).2]
  · intro w
    by_cases hm : (get_new_messages env.pages s.last_message_id s.is_first_run).1 = []
    · left
      constructor <;> simp [run_cycle, hm]
    · simp only [run_cycle, if_neg hm]
      cases hl : (process_loop env w (s.last_message_id, 0)
          (get_new_messages env.pages s.last_message_id s.is_first_run).1.reverse).2.1.1 with
      | none => left; simp [hl]
      | some lid =>
        by_cases hc : lid ≠ "" ∧ some lid ≠ s.last_message_id
        · rcases process_loop_latest_cases env
              (get_new_messages env.pages s.last_message_id s.is_first_run).1.reverse
              w (s.last_message_id, 0) with h | ⟨i, hi, h⟩
          · rw [hl] at h
            exact absurd (by simpa using h) hc.2
          · rw [hl] at h
            have hii : lid = i := Option.some.inj h
            right
            refine ⟨lid, ?_, ?_, ?_⟩
            · rw [hii]
              exact List.mem_reverse.mp hi
            · simp [hl, hc]
            · simp [hl, hc]
        · left
          constructor <;> simp [hl, hc]
